import Mathlib

/-!
Verification development for the salient `DocumentGraph` component
(`src/lib/salient/graph/document.js`).  The definitions below are a shallow
embedding of that file: key formatting (`_fmt`, `_fmtNode`, `_isPrefixed`),
the graph-mutation pipeline (`_incrEdges`, `readDocument`) as a list of
elementary store operations, the TF-IDF computation (`TFIDF`), weight
indexing (`indexWeights`), search-term handling (`search`), and cosine
similarity (`_cosineFilter`).  JavaScript numbers are modelled by exact
reals extended with the non-finite values `NaN` and the two infinities;
the backing redis store is modelled by its documented reply shapes.
-/

namespace Salient

/-- Configuration of a `DocumentGraph` (the fields of `defaultOptions` that
the core logic reads): key namespace (called `nsPrefix` in the source),
separator, and the default search limit. -/
structure Config where
  ns : String
  separator : String
  searchLimit : Nat

/-- Default options from document.js lines 9-16: empty namespace, `":"`
separator, search limit 100. -/
def defaultConfig : Config := { ns := "", separator := ":", searchLimit := 100 }

/-- Reserved key marker for corpus totals (document.js line 18). -/
def TOTAL : String := "t"

/-- Reserved key marker for directed next-edges (document.js line 19). -/
def NEXT : String := "<"

/-- Reserved key marker for weight sets (document.js line 20). -/
def WEIGHT : String := "w"

/-- Reserved key marker for document contents (document.js line 21). -/
def CONTENT : String := "^"

/-- JavaScript `Array.prototype.join(sep)`. -/
def joinSep (sep : String) : List String → String
  | [] => ""
  | [x] => x
  | x :: y :: xs => x ++ sep ++ joinSep sep (y :: xs)

/-- JavaScript `String.prototype.toLowerCase()` (per UTF-16 unit; modelled
per character). -/
def jsToLower (s : String) : String := ⟨s.data.map Char.toLower⟩

/-- Embedding of `DocumentGraph.prototype._fmt` for string arguments (the
only kind the source passes): pushes the namespace when non-empty, keeps
the non-empty arguments, and joins everything with the separator. -/
def fmtArgs (cfg : Config) (args : List String) : String :=
  joinSep cfg.separator
    ((if cfg.ns.length > 0 then [cfg.ns] else []) ++ args.filter (fun a => a.length > 0))

/-- Shorthand for `_fmt` applied to one argument. -/
def fmt1 (cfg : Config) (a : String) : String := fmtArgs cfg [a]

/-- Shorthand for `_fmt` applied to two arguments. -/
def fmt2 (cfg : Config) (a b : String) : String := fmtArgs cfg [a, b]

/-- Embedding of `DocumentGraph.prototype._fmtNode`: lower-cased tag
followed by the node's `distinct` value (when truthy) or the lower-cased
term, joined with the separator; a falsy tag yields the empty join. -/
def fmtNode (cfg : Config) (tag term : String) (distinct : Option String) : String :=
  if tag ≠ "" then
    joinSep cfg.separator
      [jsToLower tag,
        match distinct with
        | some d => if d ≠ "" then d else jsToLower term
        | none => jsToLower term]
  else joinSep cfg.separator []

/-- Reserved system prefixes built in the `DocumentGraph` constructor
(document.js lines 33-37), in source order: total, next, content, weight. -/
def reservedHeads (cfg : Config) : List String :=
  [fmt1 cfg TOTAL ++ cfg.separator, fmt1 cfg NEXT ++ cfg.separator,
   fmt1 cfg CONTENT ++ cfg.separator, fmt1 cfg WEIGHT ++ cfg.separator]

/-- Embedding of `DocumentGraph.prototype._isPrefixed`: `id.indexOf(p) == 0`
for one of the reserved heads, i.e. some reserved head starts the key. -/
def isReserved (cfg : Config) (id : String) : Bool :=
  (reservedHeads cfg).any (fun p => decide (p.data <+: id.data))

section GraphBuilder

/-- Leaf node descriptor produced by the tokenizer: tag, term, optional
distinct value, and the filtered flag. -/
structure LeafNode where
  tag : String
  term : String
  distinct : Option String
  isFiltered : Bool
deriving DecidableEq

/-- Node descriptor as consumed by `readDocument`: a linearized glossary
node with optional `orig`/`children` fields (JavaScript field-presence is
modelled by `Option`; an empty-but-present children array is `some []`). -/
structure GNode where
  tag : String
  term : String
  distinct : Option String
  isFiltered : Bool
  orig : Option LeafNode
  children : Option (List LeafNode)
deriving DecidableEq

/-- Key of a leaf node, via `_fmtNode`. -/
def leafKey (cfg : Config) (c : LeafNode) : String := fmtNode cfg c.tag c.term c.distinct

/-- Key of a top-level node in the leaf case, via `_fmtNode`. -/
def gKey (cfg : Config) (g : GNode) : String := fmtNode cfg g.tag g.term g.distinct

/-- Elementary store mutations issued by `readDocument`: `INCRBY key 1`,
`SET key value`, and `ZINCRBY name 1 member`. -/
inductive Op where
  | incrKv : String → Op
  | setContent : String → String → Op
  | incrZ : String → String → Op
deriving DecidableEq

/-- Store state: integer counters, content strings, and sorted-set scores
(member weight, absent members scored 0, which is what `ZINCRBY` starts
from). -/
structure Store where
  kv : String → Nat
  content : String → Option String
  zsets : String → String → Nat

/-- Store with no keys. -/
def emptyStore : Store :=
  { kv := fun _ => 0, content := fun _ => none, zsets := fun _ _ => 0 }

/-- Effect of one elementary operation on the store. -/
def applyOp (st : Store) : Op → Store
  | .incrKv k => { st with kv := fun x => if x = k then st.kv x + 1 else st.kv x }
  | .setContent k v => { st with content := fun x => if x = k then some v else st.content x }
  | .incrZ n m =>
      { st with zsets := fun x y => if x = n ∧ y = m then st.zsets x y + 1 else st.zsets x y }

/-- Effect of a list of operations, applied in order. -/
def applyOps (st : Store) (ops : List Op) : Store := ops.foldl applyOp st

/-- Operations issued by `DocumentGraph.prototype._incrEdges` (document.js
lines 69-84): increment the key's corpus total, the two symmetric
cooccurrence entries id to key and key to id, and, when a previous key
exists, the directed next-edge entry. -/
def incrEdgesOps (cfg : Config) (id key : String) (prev : Option String) : List Op :=
  [.incrKv (fmt2 cfg TOTAL key), .incrZ (fmt1 cfg id) key, .incrZ (fmt1 cfg key) id] ++
    (match prev with
     | some p => [.incrZ (fmt2 cfg NEXT p) key]
     | none => [])

/-- Walk over the non-filtered children of a group node (document.js lines
182-187), threading the previous key. -/
def childrenOps (cfg : Config) (id : String) : List LeafNode → Option String → List Op × Option String
  | [], prev => ([], prev)
  | c :: cs, prev =>
    if c.isFiltered then childrenOps cfg id cs prev
    else
      let rest := childrenOps cfg id cs (some (leafKey cfg c))
      (incrEdgesOps cfg id (leafKey cfg c) prev ++ rest.1, rest.2)

/-- Processing of one linearized node (document.js lines 171-189): a node
with no `children`, no `orig` and no filter flag is a leaf; otherwise a
non-filtered node carrying both `orig` and `children` contributes its
non-filtered `orig` then its non-filtered children; anything else
contributes nothing. -/
def nodeOps (cfg : Config) (id : String) (g : GNode) (prev : Option String) :
    List Op × Option String :=
  if g.children = none ∧ g.orig = none ∧ g.isFiltered = false then
    (incrEdgesOps cfg id (gKey cfg g) prev, some (gKey cfg g))
  else if g.isFiltered = false then
    match g.orig, g.children with
    | some o, some cs =>
      let first : List Op × Option String :=
        if o.isFiltered then ([], prev)
        else (incrEdgesOps cfg id (leafKey cfg o) prev, some (leafKey cfg o))
      let rest := childrenOps cfg id cs first.2
      (first.1 ++ rest.1, rest.2)
    | _, _ => ([], prev)
  else ([], prev)

/-- Walk over the whole node sequence (the do-while loop of `readDocument`). -/
def walkOps (cfg : Config) (id : String) : List GNode → Option String → List Op
  | [], _ => []
  | g :: gs, prev =>
    let r := nodeOps cfg id g prev
    r.1 ++ walkOps cfg id gs r.2

/-- Operations issued by `DocumentGraph.prototype.readDocument` (document.js
lines 159-193): increment the global document counter, store the raw text,
then walk the tokenized node sequence starting with no previous key. -/
def readDocumentOps (cfg : Config) (id text : String) (seq : List GNode) : List Op :=
  .incrKv (fmt1 cfg TOTAL) :: .setContent (fmt2 cfg CONTENT id) text ::
    walkOps cfg id seq none

/-- State reached after one `readDocument(id, text)` call whose tokenizer
output is `seq`. -/
def readDocument (cfg : Config) (id text : String) (seq : List GNode) (st : Store) : Store :=
  applyOps st (readDocumentOps cfg id text seq)

/-- State reached after a sequence of `readDocument` calls. -/
def ingestAll (cfg : Config) (docs : List (String × String × List GNode)) (st : Store) : Store :=
  docs.foldl (fun s d => readDocument cfg d.1 d.2.1 d.2.2 s) st

end GraphBuilder

section JSNumbers

/-- JavaScript double values as used by the arithmetic in document.js:
an exact real, `NaN`, or one of the infinities (rounding is idealized
away; the claims under study concern exact formulas and the
finite/non-finite split). -/
inductive JSVal where
  | num : ℝ → JSVal
  | nan : JSVal
  | posInf : JSVal
  | negInf : JSVal

open Classical in
/-- JavaScript division of two finite numbers: `x / 0` is `NaN` for `x = 0`
and a signed infinity otherwise. -/
noncomputable def jsDiv (a b : ℝ) : JSVal :=
  if b = 0 then (if a = 0 then .nan else if 0 < a then .posInf else .negInf)
  else .num (a / b)

open Classical in
/-- JavaScript division lifted to possibly non-finite operands. -/
noncomputable def jsDivV : JSVal → JSVal → JSVal
  | .nan, _ => .nan
  | _, .nan => .nan
  | .num a, .num b => jsDiv a b
  | .posInf, .num b => if 0 ≤ b then .posInf else .negInf
  | .negInf, .num b => if 0 ≤ b then .negInf else .posInf
  | .num _, .posInf => .num 0
  | .num _, .negInf => .num 0
  | .posInf, .posInf => .nan
  | .posInf, .negInf => .nan
  | .negInf, .posInf => .nan
  | .negInf, .negInf => .nan

open Classical in
/-- JavaScript `Math.log`: `NaN` below zero, negative infinity at zero. -/
noncomputable def jsLog : JSVal → JSVal
  | .num x => if x < 0 then .nan else if x = 0 then .negInf else .num (Real.log x)
  | .posInf => .posInf
  | .negInf => .nan
  | .nan => .nan

/-- JavaScript addition on possibly non-finite operands. -/
noncomputable def jsAdd : JSVal → JSVal → JSVal
  | .nan, _ => .nan
  | _, .nan => .nan
  | .num a, .num b => .num (a + b)
  | .num _, .posInf => .posInf
  | .posInf, .num _ => .posInf
  | .num _, .negInf => .negInf
  | .negInf, .num _ => .negInf
  | .posInf, .posInf => .posInf
  | .negInf, .negInf => .negInf
  | .posInf, .negInf => .nan
  | .negInf, .posInf => .nan

open Classical in
/-- JavaScript multiplication on possibly non-finite operands: an infinity
times zero is `NaN`, otherwise signs multiply. -/
noncomputable def jsMul : JSVal → JSVal → JSVal
  | .nan, _ => .nan
  | _, .nan => .nan
  | .num a, .num b => .num (a * b)
  | .num a, .posInf => if a = 0 then .nan else if 0 < a then .posInf else .negInf
  | .posInf, .num a => if a = 0 then .nan else if 0 < a then .posInf else .negInf
  | .num a, .negInf => if a = 0 then .nan else if 0 < a then .negInf else .posInf
  | .negInf, .num a => if a = 0 then .nan else if 0 < a then .negInf else .posInf
  | .posInf, .posInf => .posInf
  | .negInf, .negInf => .posInf
  | .posInf, .negInf => .negInf
  | .negInf, .posInf => .negInf

/-- JavaScript `parseInt` applied to the redis string reply for an integer
counter: a missing key (`null`) parses to `NaN`. -/
def parseIntReply : Option Nat → JSVal
  | some v => .num v
  | none => .nan

end JSNumbers

section TFIDFCalculator

/-- Result record built by `DocumentGraph.prototype.TFIDF` (document.js
lines 387-394). -/
structure TFIDFResult where
  key : String
  rawtf : JSVal
  df : JSVal
  n : JSVal
  idf : JSVal
  tf : JSVal
  tfidf : JSVal

/-- Embedding of the `execResults` body of `DocumentGraph.prototype.TFIDF`
(document.js lines 370-396).  Inputs are the replies of the atomic multi
command: `GET` of the term's corpus total, `GET` of the global document
total, `ZCARD` of the term's adjacency set, and - only when a document id
was supplied - `ZSCORE` of the document-to-term weight.  `keyFrequency`
is replaced by the parsed `ZSCORE` reply exactly when an id was given,
then `tf = 1 + Math.log(keyFrequency)/Math.LN10`,
`idf = Math.log(docFrequency/keyDocFrequency)/Math.LN10`, and
`tfidf = tf * idf`. -/
noncomputable def TFIDF (key : String) (idGiven : Bool)
    (totalReply docTotalReply : Option Nat) (zcardReply : Nat)
    (zscoreReply : Option Nat) : TFIDFResult :=
  let keyFrequency0 := parseIntReply totalReply
  let docFrequency := parseIntReply docTotalReply
  let keyDocFrequency : JSVal := .num zcardReply
  let keyFrequency := if idGiven then parseIntReply zscoreReply else keyFrequency0
  let tf := jsAdd (.num 1) (jsDivV (jsLog keyFrequency) (.num (Real.log 10)))
  let idf := jsDivV (jsLog (jsDivV docFrequency keyDocFrequency)) (.num (Real.log 10))
  { key := key, rawtf := keyFrequency, df := keyDocFrequency, n := docFrequency,
    idf := idf, tf := tf, tfidf := jsMul tf idf }

end TFIDFCalculator

section WeightIndexer

/-- Embedding of `DocumentGraph.prototype._computeWeights` as observed
through its callback: `async.every` over the terms, i.e. the conjunction
of the per-term successes (vacuously true on an empty term list).
`termSuccess` abstracts whether a term's TFIDF read and the two `zadd`
writes succeed. -/
def computeWeights (termSuccess : String → Bool) (terms : List String) : Bool :=
  terms.all termSuccess

/-- Embedding of `DocumentGraph.prototype.indexWeights` (document.js lines
251-261) as observed through its callback.  The argument is the `ZRANGE`
reply for the document's adjacency set: `none` models a null reply (failed
read), while an existing-but-empty set yields `some []` (the redis client
returns an empty array, which is truthy in JavaScript, so the
`if (!results)` guard does not fire on it). -/
def indexWeights (termSuccess : String → Bool) (zrangeReply : Option (List String)) : Bool :=
  match zrangeReply with
  | none => false
  | some results => computeWeights termSuccess results

end WeightIndexer

section SearchEngine

/-- Reduction of wildcard-matched keys in `DocumentGraph.prototype.search`
(document.js lines 106-111): drop the keys classified as reserved, then
slice `nsPrefix.length + 1` leading characters off each survivor. -/
def reduceKeys (cfg : Config) (keys : List String) : List String :=
  (keys.filter (fun k => !(isReserved cfg k))).map (fun k => ⟨k.data.drop (cfg.ns.length + 1)⟩)

/-- Redis `ZREVRANGE key start stop WITHSCORES` on a sorted set whose
entries are listed in descending score order: both indices are inclusive,
so the reply covers positions `start` through `stop`.  Modelled from the
redis sorted-set range contract consumed by document.js. -/
def zrevrange (entries : List (String × ℚ)) (start stop : Nat) : List (String × ℚ) :=
  (entries.drop start).take (stop - start + 1)

/-- Entries fetched for one resolved term by `DocumentGraph.prototype.search`
(document.js line 121): `ZREVRANGE` of the term's weight set from 0 to
`searchLimit`. -/
def searchTermFetch (entries : List (String × ℚ)) (searchLimit : Nat) : List (String × ℚ) :=
  zrevrange entries 0 searchLimit

end SearchEngine

section SimilarityEngine

/-- JavaScript `parseInt` applied to the string form of a stored sorted-set
score: the leading integer part is kept, i.e. the value is truncated
toward zero. -/
def parseIntScore (q : ℚ) : ℤ := if 0 ≤ q then ⌊q⌋ else ⌈q⌉

/-- Embedding of `DocumentGraph.prototype._isIdFiltered` (document.js lines
263-276): with a non-empty filter list, an id is filtered unless it
contains one of the filter strings as a substring (`indexOf(p) >= 0`). -/
def isIdFiltered (fps : Option (List String)) (id : String) : Bool :=
  match fps with
  | some ps => if 0 < ps.length then !(ps.any fun p => decide (p.data <:+: id.data)) else false
  | none => false

/-- Processing of one `(member, score)` entry by a result loop of
`_cosineFilter` (document.js lines 296-307): an unfiltered entry
overwrites its member's dictionary slot with the integer-parsed score. -/
def dictStep (fps : Option (List String)) (d : String → Option ℤ) (e : String × ℚ) :
    String → Option ℤ :=
  if isIdFiltered fps e.1 then d
  else fun k => if k = e.1 then some (parseIntScore e.2) else d k

/-- Score dictionary built by one result loop of `_cosineFilter`. -/
def buildDict (fps : Option (List String)) (entries : List (String × ℚ)) :
    String → Option ℤ :=
  entries.foldl (dictStep fps) (fun _ => none)

/-- Sum of squared parsed scores accumulated by one result loop of
`_cosineFilter` (`id1_sum`, `id2_sum`). -/
def sumSquares (fps : Option (List String)) (entries : List (String × ℚ)) : ℤ :=
  entries.foldl
    (fun s e =>
      if isIdFiltered fps e.1 then s else s + parseIntScore e.2 * parseIntScore e.2)
    0

/-- Union id list accumulated across the two result loops of
`_cosineFilter`: each unfiltered member is appended when not yet present. -/
def addIds (fps : Option (List String)) (entries : List (String × ℚ))
    (acc : List String) : List String :=
  entries.foldl
    (fun ids e =>
      if isIdFiltered fps e.1 then ids
      else if e.1 ∈ ids then ids else ids ++ [e.1])
    acc

/-- Dot product loop of `_cosineFilter` (document.js lines 323-329): sum of
products over the ids present in both dictionaries. -/
def dotFold (d1 d2 : String → Option ℤ) (ids : List String) : ℤ :=
  ids.foldl
    (fun s id =>
      match d1 id, d2 id with
      | some a, some b => s + a * b
      | _, _ => s)
    0

/-- Embedding of `DocumentGraph.prototype._cosineFilter` (document.js lines
278-337) as a function of the two `ZRANGE ... WITHSCORES` replies (member,
stored score): builds both dictionaries and the shared id list, then
returns `dotsum / (Math.sqrt(id1_sum) * Math.sqrt(id2_sum))`. -/
noncomputable def cosineFilter (fps : Option (List String))
    (v1 v2 : List (String × ℚ)) : JSVal :=
  jsDiv
    ((dotFold (buildDict fps v1) (buildDict fps v2) (addIds fps v2 (addIds fps v1 [])) : ℤ) : ℝ)
    (Real.sqrt ((sumSquares fps v1 : ℤ) : ℝ) * Real.sqrt ((sumSquares fps v2 : ℤ) : ℝ))

/-- Embedding of `DocumentGraph.prototype.CosineSimilarity`: `_cosineFilter`
with no tag filter. -/
noncomputable def CosineSimilarity (v1 v2 : List (String × ℚ)) : JSVal :=
  cosineFilter none v1 v2

/-- Embedding of `DocumentGraph.prototype.CosineConceptSimilarity`:
`_cosineFilter` with the fixed `noun`/`adj` filter. -/
noncomputable def CosineConceptSimilarity (v1 v2 : List (String × ℚ)) : JSVal :=
  cosineFilter (some ["noun", "adj"]) v1 v2

/-- Cosine similarity of the stored real-valued weight vectors as the spec
describes it (section 4.6): dot product over the intersection of the key
sets, divided by the product of the full magnitudes, with the exact stored
scores.  This definition follows the spec's words and serves as the
comparison point for the integer-parsing claim. -/
noncomputable def specCosineSimilarity (v1 v2 : List (String × ℚ)) : ℝ :=
  ((v1.map (fun e =>
      match v2.lookup e.1 with
      | some q => ((e.2 * q : ℚ) : ℝ)
      | none => 0)).sum) /
    (Real.sqrt (((v1.map (fun e => e.2 * e.2)).sum : ℚ) : ℝ) *
     Real.sqrt (((v2.map (fun e => e.2 * e.2)).sum : ℚ) : ℝ))

end SimilarityEngine

section StringLemmas

lemma strData_append (s t : String) : (s ++ t).data = s.data ++ t.data := by
  cases s; cases t; rfl

lemma strLen_pos {s : String} (h : s ≠ "") : 0 < s.length := by
  rcases s with ⟨data⟩
  cases data with
  | nil => exact absurd rfl h
  | cons c cs => exact Nat.succ_pos _

lemma strAppend_cancel {p x y : String} (h : p ++ x = p ++ y) : x = y := by
  have h2 := congrArg String.data h
  rw [strData_append, strData_append] at h2
  have h3 := List.append_cancel_left h2
  cases x; cases y; cases h3; rfl

lemma strAppend_len_ne {x s y : String} (hy : y ≠ "") : x ≠ x ++ s ++ y := by
  intro h
  have := congrArg String.length h
  rw [String.length_append, String.length_append] at this
  have hl := strLen_pos hy
  omega

/-- Head prepended by `_fmt` before its arguments: the namespace plus one
separator when the namespace is non-empty, nothing otherwise. -/
def nsHead (cfg : Config) : String := if cfg.ns = "" then "" else cfg.ns ++ cfg.separator

lemma strEmpty_append (a : String) : "" ++ a = a := by
  cases a; rfl

lemma joinSep_pair (sep x y : String) : joinSep sep [x, y] = x ++ sep ++ y := rfl

lemma joinSep_triple (sep x y z : String) :
    joinSep sep [x, y, z] = x ++ sep ++ (y ++ sep ++ z) := by
  show x ++ sep ++ joinSep sep [y, z] = x ++ sep ++ (y ++ sep ++ z)
  rw [joinSep_pair]

lemma nsArgs_eq (cfg : Config) :
    (if cfg.ns.length > 0 then [cfg.ns] else []) =
      (if cfg.ns = "" then ([] : List String) else [cfg.ns]) := by
  by_cases h : cfg.ns = ""
  · rw [if_pos h, if_neg]
    rw [h]; decide
  · rw [if_neg h, if_pos (strLen_pos h)]

lemma filter_len_single {a : String} (ha : a ≠ "") :
    List.filter (fun x => x.length > 0) [a] = [a] := by
  simp only [List.filter]
  rw [decide_eq_true (strLen_pos ha)]

lemma fmt1_nsHead (cfg : Config) {a : String} (ha : a ≠ "") :
    fmt1 cfg a = nsHead cfg ++ a := by
  unfold fmt1 fmtArgs nsHead
  rw [nsArgs_eq, filter_len_single ha]
  by_cases h : cfg.ns = ""
  · rw [if_pos h, if_pos h]
    show joinSep cfg.separator [a] = "" ++ a
    rw [strEmpty_append]
    rfl
  · rw [if_neg h, if_neg h]
    show joinSep cfg.separator [cfg.ns, a] = cfg.ns ++ cfg.separator ++ a
    exact joinSep_pair ..

lemma filter_len_pair {a b : String} (ha : a ≠ "") (hb : b ≠ "") :
    List.filter (fun x => x.length > 0) [a, b] = [a, b] := by
  simp only [List.filter]
  rw [decide_eq_true (strLen_pos ha), decide_eq_true (strLen_pos hb)]

lemma fmt2_nsHead (cfg : Config) {a b : String} (ha : a ≠ "") (hb : b ≠ "") :
    fmt2 cfg a b = nsHead cfg ++ (a ++ cfg.separator ++ b) := by
  unfold fmt2 fmtArgs nsHead
  rw [nsArgs_eq, filter_len_pair ha hb]
  by_cases h : cfg.ns = ""
  · rw [if_pos h, if_pos h]
    show joinSep cfg.separator [a, b] = "" ++ (a ++ cfg.separator ++ b)
    rw [strEmpty_append, joinSep_pair]
  · rw [if_neg h, if_neg h]
    show joinSep cfg.separator [cfg.ns, a, b] = cfg.ns ++ cfg.separator ++ (a ++ cfg.separator ++ b)
    exact joinSep_triple ..

lemma filter_len_nilstr :
    List.filter (fun x : String => x.length > 0) [""] = [] := by decide

lemma fmt1_empty_ne (cfg : Config) {a : String} (ha : a ≠ "") :
    fmt1 cfg "" ≠ fmt1 cfg a := by
  rw [fmt1_nsHead cfg ha]
  unfold fmt1 fmtArgs nsHead
  rw [nsArgs_eq, filter_len_nilstr]
  by_cases h : cfg.ns = ""
  · rw [if_pos h, if_pos h]
    intro hcon
    rw [strEmpty_append] at hcon
    have h2 : ("" : String) = a := hcon
    exact ha h2.symm
  · rw [if_neg h, if_neg h]
    show cfg.ns ≠ cfg.ns ++ cfg.separator ++ a
    exact strAppend_len_ne ha

lemma fmt1_eq_iff (cfg : Config) {x a : String} (ha : a ≠ "") :
    fmt1 cfg x = fmt1 cfg a ↔ x = a := by
  constructor
  · intro h
    by_cases hx : x = ""
    · exact absurd (hx ▸ h) (fmt1_empty_ne cfg ha)
    · rw [fmt1_nsHead cfg hx, fmt1_nsHead cfg ha] at h
      exact strAppend_cancel h
  · intro h; rw [h]

end StringLemmas

section KeyLemmas

/-- Names (document ids or node keys) that cannot collide with the
next-edge bookkeeping zsets: non-empty, not the bare next marker, and not
starting with the next marker followed by the separator. -/
def Qkey (cfg : Config) (a : String) : Prop :=
  a ≠ "" ∧ ¬((NEXT ++ cfg.separator).data <+: a.data) ∧ a ≠ NEXT

instance (cfg : Config) (a : String) : Decidable (Qkey cfg a) := by
  unfold Qkey; infer_instance

lemma fmt2_NEXT_ne_fmt1 (cfg : Config) (p : String) {a : String} (ha : Qkey cfg a) :
    fmt2 cfg NEXT p ≠ fmt1 cfg a := by
  obtain ⟨ha1, ha2, ha3⟩ := ha
  by_cases hp : p = ""
  · have hfil : List.filter (fun x : String => x.length > 0) [NEXT, ""] =
        List.filter (fun x : String => x.length > 0) [NEXT] := by decide
    have hdrop : fmt2 cfg NEXT p = fmt1 cfg NEXT := by
      subst hp
      unfold fmt2 fmt1 fmtArgs
      rw [hfil]
    rw [hdrop, fmt1_nsHead cfg (show NEXT ≠ "" by decide), fmt1_nsHead cfg ha1]
    intro hcon
    exact ha3 (strAppend_cancel hcon).symm
  · rw [fmt2_nsHead cfg (show NEXT ≠ "" by decide) hp, fmt1_nsHead cfg ha1]
    intro hcon
    have h2 := (strAppend_cancel hcon).symm
    apply ha2
    rw [h2]
    exact ⟨p.data, (strData_append (NEXT ++ cfg.separator) p).symm⟩

lemma fmt2_TOTAL_ne_fmt1 (cfg : Config) {key : String} (hk : key ≠ "") :
    fmt2 cfg TOTAL key ≠ fmt1 cfg TOTAL := by
  rw [fmt2_nsHead cfg (show TOTAL ≠ "" by decide) hk,
    fmt1_nsHead cfg (show TOTAL ≠ "" by decide)]
  intro hcon
  exact strAppend_len_ne hk (strAppend_cancel hcon).symm

end KeyLemmas

section OpCounts

/-- Number of `INCRBY key 1` operations targeting `k`. -/
def kvCount (k : String) : List Op → Nat
  | [] => 0
  | .incrKv x :: ops => (if x = k then 1 else 0) + kvCount k ops
  | _ :: ops => kvCount k ops

/-- Number of `ZINCRBY name 1 member` operations targeting `(n, m)`. -/
def zCount (n m : String) : List Op → Nat
  | [] => 0
  | .incrZ x y :: ops => (if x = n ∧ y = m then 1 else 0) + zCount n m ops
  | _ :: ops => zCount n m ops

lemma kvCount_append (k : String) (l1 l2 : List Op) :
    kvCount k (l1 ++ l2) = kvCount k l1 + kvCount k l2 := by
  induction l1 with
  | nil => simp [kvCount]
  | cons op ops ih => cases op <;> simp [kvCount, ih] <;> omega

lemma zCount_append (n m : String) (l1 l2 : List Op) :
    zCount n m (l1 ++ l2) = zCount n m l1 + zCount n m l2 := by
  induction l1 with
  | nil => simp [zCount]
  | cons op ops ih => cases op <;> simp [zCount, ih] <;> omega

lemma applyOps_append (st : Store) (l1 l2 : List Op) :
    applyOps st (l1 ++ l2) = applyOps (applyOps st l1) l2 :=
  List.foldl_append ..

lemma applyOps_kv (st : Store) (ops : List Op) (k : String) :
    (applyOps st ops).kv k = st.kv k + kvCount k ops := by
  induction ops generalizing st with
  | nil => simp [applyOps, kvCount]
  | cons op ops ih =>
    have hstep : applyOps st (op :: ops) = applyOps (applyOp st op) ops := rfl
    rw [hstep, ih]
    cases op with
    | incrKv x =>
      have hk : (applyOp st (Op.incrKv x)).kv k = st.kv k + (if x = k then 1 else 0) := by
        show (if k = x then st.kv k + 1 else st.kv k) = _
        by_cases h : k = x
        · rw [if_pos h, if_pos h.symm]
        · rw [if_neg h, if_neg (fun hh => h hh.symm), Nat.add_zero]
      rw [hk]
      simp only [kvCount]
      omega
    | setContent x v => simp [applyOp, kvCount]
    | incrZ x y => simp [applyOp, kvCount]

lemma applyOps_zsets (st : Store) (ops : List Op) (n m : String) :
    (applyOps st ops).zsets n m = st.zsets n m + zCount n m ops := by
  induction ops generalizing st with
  | nil => simp [applyOps, zCount]
  | cons op ops ih =>
    have hstep : applyOps st (op :: ops) = applyOps (applyOp st op) ops := rfl
    rw [hstep, ih]
    cases op with
    | incrKv x => simp [applyOp, zCount]
    | setContent x v => simp [applyOp, zCount]
    | incrZ x y =>
      have hz : (applyOp st (Op.incrZ x y)).zsets n m =
          st.zsets n m + (if x = n ∧ y = m then 1 else 0) := by
        show (if n = x ∧ m = y then st.zsets n m + 1 else st.zsets n m) = _
        by_cases h : n = x ∧ m = y
        · rw [if_pos h, if_pos ⟨h.1.symm, h.2.symm⟩]
        · rw [if_neg h, if_neg (fun hh => h ⟨hh.1.symm, hh.2.symm⟩), Nat.add_zero]
      rw [hz]
      simp only [zCount]
      omega

end OpCounts

section Symmetry

/-- Cooccurrence symmetry invariant: for any two non-reserved names, the
weight stored under the first name's adjacency zset for the second equals
the weight stored under the second name's adjacency zset for the first. -/
def SymState (cfg : Config) (st : Store) : Prop :=
  ∀ a b : String, Qkey cfg a → Qkey cfg b →
    st.zsets (fmt1 cfg a) b = st.zsets (fmt1 cfg b) a

lemma zCount_incrEdges (cfg : Config) (id key : String) (prev : Option String) (n m : String) :
    zCount n m (incrEdgesOps cfg id key prev) =
      ((if fmt1 cfg id = n ∧ key = m then 1 else 0) +
        (if fmt1 cfg key = n ∧ id = m then 1 else 0)) +
      (match prev with
       | some p => if fmt2 cfg NEXT p = n ∧ key = m then 1 else 0
       | none => 0) := by
  cases prev <;> simp [incrEdgesOps, zCount] <;> omega

lemma indicator_pair_symm (id key a b : String) :
    ((if id = a ∧ key = b then 1 else 0) + (if key = a ∧ id = b then 1 else 0) : Nat) =
      (if id = b ∧ key = a then 1 else 0) + (if key = b ∧ id = a then 1 else 0) := by
  have hx : (id = b ∧ key = a) ↔ (key = a ∧ id = b) := and_comm
  have hy : (key = b ∧ id = a) ↔ (id = a ∧ key = b) := and_comm
  simp only [hx, hy]
  exact Nat.add_comm _ _

lemma symState_incrEdges (cfg : Config) {st : Store} (id key : String) (prev : Option String)
    (h : SymState cfg st) : SymState cfg (applyOps st (incrEdgesOps cfg id key prev)) := by
  intro a b ha hb
  rw [applyOps_zsets, applyOps_zsets, h a b ha hb]
  congr 1
  rw [zCount_incrEdges, zCount_incrEdges]
  have e1 := propext (fmt1_eq_iff cfg (x := id) ha.1)
  have e2 := propext (fmt1_eq_iff cfg (x := key) ha.1)
  have e3 := propext (fmt1_eq_iff cfg (x := id) hb.1)
  have e4 := propext (fmt1_eq_iff cfg (x := key) hb.1)
  cases prev with
  | none =>
    simp only [e1, e2, e3, e4]
    rw [indicator_pair_symm]
  | some p =>
    have hn1 : (if fmt2 cfg NEXT p = fmt1 cfg a ∧ key = b then (1 : Nat) else 0) = 0 :=
      if_neg (fun hc => fmt2_NEXT_ne_fmt1 cfg p ha hc.1)
    have hn2 : (if fmt2 cfg NEXT p = fmt1 cfg b ∧ key = a then (1 : Nat) else 0) = 0 :=
      if_neg (fun hc => fmt2_NEXT_ne_fmt1 cfg p hb hc.1)
    simp only [e1, e2, e3, e4, hn1, hn2, Nat.add_zero]
    rw [indicator_pair_symm]

lemma symState_of_zsets_eq (cfg : Config) {st st' : Store}
    (hz : st'.zsets = st.zsets) (h : SymState cfg st) : SymState cfg st' := by
  intro a b ha hb
  rw [hz]
  exact h a b ha hb

lemma symState_childrenOps (cfg : Config) (id : String) :
    ∀ (cs : List LeafNode) (prev : Option String) (st : Store), SymState cfg st →
      SymState cfg (applyOps st (childrenOps cfg id cs prev).1) := by
  intro cs
  induction cs with
  | nil => intro prev st h; exact h
  | cons c cs ih =>
    intro prev st h
    by_cases hf : c.isFiltered
    · simpa [childrenOps, hf] using ih prev st h
    · simp only [childrenOps, hf, if_neg, Bool.false_eq_true, if_false]
      rw [applyOps_append]
      exact ih _ _ (symState_incrEdges cfg id (leafKey cfg c) prev h)

lemma symState_nodeOps (cfg : Config) (id : String) (g : GNode) (prev : Option String)
    {st : Store} (h : SymState cfg st) :
    SymState cfg (applyOps st (nodeOps cfg id g prev).1) := by
  unfold nodeOps
  by_cases h1 : g.children = none ∧ g.orig = none ∧ g.isFiltered = false
  · rw [if_pos h1]
    exact symState_incrEdges cfg id (gKey cfg g) prev h
  · rw [if_neg h1]
    by_cases h2 : g.isFiltered = false
    · rw [if_pos h2]
      rcases horig : g.orig with _ | o <;> rcases hch : g.children with _ | cs
      · exact h
      · exact h
      · exact h
      · simp only []
        by_cases hof : o.isFiltered
        · simp only [hof, if_pos]
          rw [List.nil_append]
          exact symState_childrenOps cfg id cs prev st h
        · simp only [hof]
          rw [applyOps_append]
          exact symState_childrenOps cfg id cs _ _
            (symState_incrEdges cfg id (leafKey cfg o) prev h)
    · rw [if_neg h2]
      exact h

lemma symState_walkOps (cfg : Config) (id : String) :
    ∀ (seq : List GNode) (prev : Option String) (st : Store), SymState cfg st →
      SymState cfg (applyOps st (walkOps cfg id seq prev)) := by
  intro seq
  induction seq with
  | nil => intro prev st h; exact h
  | cons g gs ih =>
    intro prev st h
    show SymState cfg (applyOps st ((nodeOps cfg id g prev).1 ++ _))
    rw [applyOps_append]
    exact ih _ _ (symState_nodeOps cfg id g prev h)

lemma symState_readDocument (cfg : Config) (id text : String) (seq : List GNode)
    {st : Store} (h : SymState cfg st) :
    SymState cfg (readDocument cfg id text seq st) := by
  unfold readDocument readDocumentOps
  show SymState cfg (applyOps (applyOp (applyOp st (Op.incrKv (fmt1 cfg TOTAL)))
    (Op.setContent (fmt2 cfg CONTENT id) text)) (walkOps cfg id seq none))
  apply symState_walkOps
  have h1 : SymState cfg (applyOp st (Op.incrKv (fmt1 cfg TOTAL))) :=
    symState_of_zsets_eq cfg rfl h
  exact symState_of_zsets_eq cfg rfl h1

lemma symState_ingestAll (cfg : Config) (docs : List (String × String × List GNode))
    {st : Store} (h : SymState cfg st) : SymState cfg (ingestAll cfg docs st) := by
  induction docs generalizing st with
  | nil => exact h
  | cons d ds ih =>
    exact ih (symState_readDocument cfg d.1 d.2.1 d.2.2 h)

end Symmetry

section Doubling

/-- Check that a leaf node formats to a non-empty key. -/
def leafOkB (cfg : Config) (c : LeafNode) : Bool := leafKey cfg c != ""

/-- Check that every key a node can contribute is non-empty. -/
def gOkB (cfg : Config) (g : GNode) : Bool :=
  (gKey cfg g != "") &&
    (match g.orig with | some o => leafOkB cfg o | none => true) &&
    (match g.children with | some cs => cs.all (leafOkB cfg) | none => true)

/-- Check that every key a node sequence can contribute is non-empty. -/
def seqOkB (cfg : Config) (seq : List GNode) : Bool := seq.all (gOkB cfg)

lemma kvCount_incrEdges_total (cfg : Config) (id : String) {key : String}
    (prev : Option String) (hk : key ≠ "") :
    kvCount (fmt1 cfg TOTAL) (incrEdgesOps cfg id key prev) = 0 := by
  cases prev <;> simp [incrEdgesOps, kvCount, fmt2_TOTAL_ne_fmt1 cfg hk]

lemma kvCount_childrenOps_total (cfg : Config) (id : String) :
    ∀ (cs : List LeafNode) (prev : Option String), cs.all (leafOkB cfg) = true →
      kvCount (fmt1 cfg TOTAL) (childrenOps cfg id cs prev).1 = 0 := by
  intro cs
  induction cs with
  | nil => intro prev _; rfl
  | cons c cs ih =>
    intro prev hall
    rw [List.all_cons, Bool.and_eq_true] at hall
    have hkey : leafKey cfg c ≠ "" := bne_iff_ne.mp hall.1
    by_cases hf : c.isFiltered
    · simp only [childrenOps, hf, if_pos]
      exact ih prev hall.2
    · simp only [childrenOps, hf]
      rw [if_neg (by simp [hf]), kvCount_append, kvCount_incrEdges_total cfg id _ hkey,
        ih _ hall.2]

lemma kvCount_nodeOps_total (cfg : Config) (id : String) (g : GNode) (prev : Option String)
    (hok : gOkB cfg g = true) :
    kvCount (fmt1 cfg TOTAL) (nodeOps cfg id g prev).1 = 0 := by
  unfold gOkB at hok
  rw [Bool.and_eq_true, Bool.and_eq_true] at hok
  obtain ⟨⟨hg, horigok⟩, hchok⟩ := hok
  have hgkey : gKey cfg g ≠ "" := bne_iff_ne.mp hg
  unfold nodeOps
  by_cases h1 : g.children = none ∧ g.orig = none ∧ g.isFiltered = false
  · rw [if_pos h1]
    exact kvCount_incrEdges_total cfg id prev hgkey
  · rw [if_neg h1]
    by_cases h2 : g.isFiltered = false
    · rw [if_pos h2]
      rcases horig : g.orig with _ | o <;> rcases hch : g.children with _ | cs
      · rfl
      · rfl
      · rfl
      · rw [horig] at horigok
        rw [hch] at hchok
        have hokey : leafKey cfg o ≠ "" := bne_iff_ne.mp horigok
        simp only []
        by_cases hof : o.isFiltered
        · simp only [hof, if_pos]
          rw [List.nil_append]
          exact kvCount_childrenOps_total cfg id cs prev hchok
        · simp only [hof]
          rw [if_neg (by simp [hof]), kvCount_append,
            kvCount_incrEdges_total cfg id prev hokey,
            kvCount_childrenOps_total cfg id cs _ hchok]
    · rw [if_neg h2]
      rfl

lemma kvCount_walkOps_total (cfg : Config) (id : String) :
    ∀ (seq : List GNode) (prev : Option String), seqOkB cfg seq = true →
      kvCount (fmt1 cfg TOTAL) (walkOps cfg id seq prev) = 0 := by
  intro seq
  induction seq with
  | nil => intro prev _; rfl
  | cons g gs ih =>
    intro prev hall
    rw [seqOkB, List.all_cons, Bool.and_eq_true] at hall
    show kvCount (fmt1 cfg TOTAL) ((nodeOps cfg id g prev).1 ++ walkOps cfg id gs _) = 0
    rw [kvCount_append, kvCount_nodeOps_total cfg id g prev hall.1, ih _ hall.2]

lemma kvCount_readDocumentOps_total (cfg : Config) (id text : String) (seq : List GNode)
    (hok : seqOkB cfg seq = true) :
    kvCount (fmt1 cfg TOTAL) (readDocumentOps cfg id text seq) = 1 := by
  unfold readDocumentOps
  show (if fmt1 cfg TOTAL = fmt1 cfg TOTAL then 1 else 0) +
    kvCount (fmt1 cfg TOTAL) (walkOps cfg id seq none) = 1
  rw [if_pos rfl, kvCount_walkOps_total cfg id seq none hok]

end Doubling

section CosineLemmas

@[simp] lemma isIdFiltered_none (id : String) : isIdFiltered none id = false := rfl

lemma foldl_add_eq {α : Type} (g : α → ℤ) (l : List α) :
    ∀ s0 : ℤ, l.foldl (fun s x => s + g x) s0 = s0 + (l.map g).sum := by
  induction l with
  | nil => intro s0; simp
  | cons x t ih =>
    intro s0
    rw [List.map_cons, List.sum_cons]
    show t.foldl _ (s0 + g x) = _
    rw [ih (s0 + g x), add_assoc]

lemma sumSquares_eq (fps : Option (List String)) (l : List (String × ℚ)) :
    sumSquares fps l =
      (l.map fun e => if isIdFiltered fps e.1 then 0
        else parseIntScore e.2 * parseIntScore e.2).sum := by
  unfold sumSquares
  rw [show (fun (s : ℤ) (e : String × ℚ) =>
      if isIdFiltered fps e.1 then s else s + parseIntScore e.2 * parseIntScore e.2) =
      (fun (s : ℤ) (e : String × ℚ) => s + (if isIdFiltered fps e.1 then 0
        else parseIntScore e.2 * parseIntScore e.2)) from ?_]
  · rw [foldl_add_eq, zero_add]
  · funext s e
    by_cases hc : isIdFiltered fps e.1 <;> simp [hc]

lemma sumSquares_nonneg (fps : Option (List String)) (l : List (String × ℚ)) :
    0 ≤ sumSquares fps l := by
  rw [sumSquares_eq]
  apply List.sum_nonneg
  intro x hx
  rcases List.mem_map.mp hx with ⟨e, _, rfl⟩
  by_cases hc : isIdFiltered fps e.1
  · simp [hc]
  · simp only [hc, Bool.false_eq_true, if_false]
    exact mul_self_nonneg _

/-- Contribution of one id to the dot-product loop. -/
def prodAt (d1 d2 : String → Option ℤ) (id : String) : ℤ :=
  match d1 id, d2 id with
  | some a, some b => a * b
  | _, _ => 0

lemma dotFold_eq (d1 d2 : String → Option ℤ) (ids : List String) :
    dotFold d1 d2 ids = (ids.map (prodAt d1 d2)).sum := by
  unfold dotFold
  rw [show (fun (s : ℤ) (id : String) =>
      match d1 id, d2 id with
      | some a, some b => s + a * b
      | _, _ => s) =
      (fun (s : ℤ) (id : String) => s + prodAt d1 d2 id) from ?_]
  · rw [foldl_add_eq, zero_add]
  · funext s id
    unfold prodAt
    rcases d1 id with _ | a <;> rcases d2 id with _ | b <;> simp

lemma dictFold_not_mem (fps : Option (List String)) :
    ∀ (l : List (String × ℚ)) (d : String → Option ℤ) (k : String),
      k ∉ l.map Prod.fst → l.foldl (dictStep fps) d k = d k := by
  intro l
  induction l with
  | nil => intro d k _; rfl
  | cons e t ih =>
    intro d k hk
    rw [List.map_cons, List.mem_cons] at hk
    push_neg at hk
    show t.foldl (dictStep fps) (dictStep fps d e) k = d k
    rw [ih _ k hk.2]
    unfold dictStep
    by_cases hf : isIdFiltered fps e.1
    · rw [if_pos hf]
    · rw [if_neg hf]
      exact if_neg hk.1

lemma dictFold_mem (fps : Option (List String)) :
    ∀ (l : List (String × ℚ)) (d : String → Option ℤ) (e : String × ℚ),
      e ∈ l → (l.map Prod.fst).Nodup → isIdFiltered fps e.1 = false →
        l.foldl (dictStep fps) d e.1 = some (parseIntScore e.2) := by
  intro l
  induction l with
  | nil => intro d e he _ _; cases he
  | cons x t ih =>
    intro d e he hnd hf
    rw [List.map_cons, List.nodup_cons] at hnd
    rcases List.mem_cons.mp he with he1 | he2
    · subst he1
      show t.foldl (dictStep fps) (dictStep fps d e) e.1 = _
      rw [dictFold_not_mem fps t _ _ hnd.1]
      unfold dictStep
      rw [if_neg (by rw [hf]; exact Bool.false_ne_true), if_pos rfl]
    · exact ih _ e he2 hnd.2 hf

lemma dictFold_some (fps : Option (List String)) :
    ∀ (l : List (String × ℚ)) (d : String → Option ℤ) (k : String) (a : ℤ),
      l.foldl (dictStep fps) d k = some a →
        (∃ e ∈ l, isIdFiltered fps e.1 = false ∧ e.1 = k ∧ a = parseIntScore e.2) ∨
          d k = some a := by
  intro l
  induction l with
  | nil => intro d k a h; exact Or.inr h
  | cons x t ih =>
    intro d k a h
    rcases ih (dictStep fps d x) k a h with ⟨e, he, hf, hk, ha⟩ | hbase
    · exact Or.inl ⟨e, List.mem_cons_of_mem _ he, hf, hk, ha⟩
    · unfold dictStep at hbase
      by_cases hf : isIdFiltered fps x.1
      · rw [if_pos hf] at hbase
        exact Or.inr hbase
      · rw [if_neg hf] at hbase
        by_cases hkx : k = x.1
        · rw [if_pos hkx] at hbase
          refine Or.inl ⟨x, List.mem_cons_self .., Bool.not_eq_true _ ▸ hf, hkx.symm, ?_⟩
          exact (Option.some.injEq .. ▸ hbase).symm
        · rw [if_neg hkx] at hbase
          exact Or.inr hbase

lemma sum_map_zero {α : Type} (g : α → ℤ) (l : List α) (hnn : ∀ e ∈ l, 0 ≤ g e)
    (hz : (l.map g).sum = 0) : ∀ e ∈ l, g e = 0 := by
  induction l with
  | nil => intro e he; cases he
  | cons x t ih =>
    rw [List.map_cons, List.sum_cons] at hz
    have hx : 0 ≤ g x := hnn x (List.mem_cons_self ..)
    have ht : 0 ≤ (t.map g).sum := by
      apply List.sum_nonneg
      intro y hy
      rcases List.mem_map.mp hy with ⟨e, he, rfl⟩
      exact hnn e (List.mem_cons_of_mem _ he)
    intro e he
    rcases List.mem_cons.mp he with he1 | he2
    · subst he1; omega
    · exact ih (fun e' he' => hnn e' (List.mem_cons_of_mem _ he')) (by omega) e he2

lemma buildDict_zero (fps : Option (List String)) (l : List (String × ℚ))
    (hz : sumSquares fps l = 0) :
    ∀ k a, buildDict fps l k = some a → a = 0 := by
  intro k a h
  rcases dictFold_some fps l _ k a h with ⟨e, he, hf, _, ha⟩ | hbase
  · have hterm := sum_map_zero
      (fun e : String × ℚ => if isIdFiltered fps e.1 then 0
        else parseIntScore e.2 * parseIntScore e.2) l
      (by
        intro e' _
        by_cases hc : isIdFiltered fps e'.1
        · simp [hc]
        · simp only [hc, Bool.false_eq_true, if_false]
          exact mul_self_nonneg _)
      ((sumSquares_eq fps l).symm.trans hz) e he
    have hterm2 : (if isIdFiltered fps e.1 = true then (0 : ℤ)
        else parseIntScore e.2 * parseIntScore e.2) = 0 := hterm
    rw [hf] at hterm2
    simp only [Bool.false_eq_true, if_false] at hterm2
    rw [ha]
    exact mul_self_eq_zero.mp hterm2
  · cases hbase

lemma dotFold_zero_left (d1 d2 : String → Option ℤ) (ids : List String)
    (h : ∀ k a, d1 k = some a → a = 0) : dotFold d1 d2 ids = 0 := by
  rw [dotFold_eq]
  apply List.sum_eq_zero
  intro x hx
  rcases List.mem_map.mp hx with ⟨id, _, rfl⟩
  unfold prodAt
  rcases hd1 : d1 id with _ | a
  · rcases hd2 : d2 id with _ | b <;> rfl
  · rcases hd2 : d2 id with _ | b
    · rfl
    · show a * b = 0
      rw [h id a hd1, zero_mul]

lemma dotFold_zero_right (d1 d2 : String → Option ℤ) (ids : List String)
    (h : ∀ k a, d2 k = some a → a = 0) : dotFold d1 d2 ids = 0 := by
  rw [dotFold_eq]
  apply List.sum_eq_zero
  intro x hx
  rcases List.mem_map.mp hx with ⟨id, _, rfl⟩
  unfold prodAt
  rcases hd1 : d1 id with _ | a
  · rcases hd2 : d2 id with _ | b <;> rfl
  · rcases hd2 : d2 id with _ | b
    · rfl
    · show a * b = 0
      rw [h id b hd2, mul_zero]

lemma addIds_none_sub : ∀ (l : List (String × ℚ)) (acc : List String),
    (∀ x ∈ l.map Prod.fst, x ∈ acc) → addIds none l acc = acc := by
  intro l
  induction l with
  | nil => intro acc _; rfl
  | cons e t ih =>
    intro acc hsub
    show t.foldl _
      (if isIdFiltered none e.1 then acc else if e.1 ∈ acc then acc else acc ++ [e.1]) = acc
    rw [if_neg (by simp), if_pos (hsub e.1 (by rw [List.map_cons]; exact List.mem_cons_self ..))]
    exact ih acc (fun x hx => hsub x (by rw [List.map_cons]; exact List.mem_cons_of_mem _ hx))

lemma addIds_none_fresh : ∀ (l : List (String × ℚ)) (acc : List String),
    (l.map Prod.fst).Nodup → (∀ x ∈ l.map Prod.fst, x ∉ acc) →
      addIds none l acc = acc ++ l.map Prod.fst := by
  intro l
  induction l with
  | nil => intro acc _ _; simp [addIds]
  | cons e t ih =>
    intro acc hnd hfresh
    rw [List.map_cons, List.nodup_cons] at hnd
    have hem : e.1 ∉ acc := hfresh e.1 (by rw [List.map_cons]; exact List.mem_cons_self ..)
    show t.foldl _
      (if isIdFiltered none e.1 then acc else if e.1 ∈ acc then acc else acc ++ [e.1]) = _
    rw [if_neg (by simp), if_neg hem]
    have := ih (acc ++ [e.1]) hnd.2 (by
      intro x hx
      rw [List.mem_append, List.mem_singleton]
      push_neg
      constructor
      · exact hfresh x (by rw [List.map_cons]; exact List.mem_cons_of_mem _ hx)
      · intro hxe
        exact hnd.1 (hxe ▸ hx))
    show addIds none t (acc ++ [e.1]) = _
    rw [this, List.map_cons, List.append_assoc, List.singleton_append]

lemma addIds_self (v : List (String × ℚ)) (hnd : (v.map Prod.fst).Nodup) :
    addIds none v (addIds none v []) = v.map Prod.fst := by
  have h1 : addIds none v [] = v.map Prod.fst := by
    have := addIds_none_fresh v [] hnd (by intro x _; exact List.not_mem_nil x)
    rwa [List.nil_append] at this
  rw [h1]
  exact addIds_none_sub v _ (fun x hx => hx)

lemma buildDict_self_dot (v : List (String × ℚ)) (hnd : (v.map Prod.fst).Nodup) :
    dotFold (buildDict none v) (buildDict none v) (v.map Prod.fst) = sumSquares none v := by
  rw [dotFold_eq, sumSquares_eq, List.map_map]
  apply congrArg List.sum
  apply List.map_congr_left
  intro e he
  have hd : buildDict none v e.1 = some (parseIntScore e.2) :=
    dictFold_mem none v _ e he hnd rfl
  simp only [Function.comp_apply, prodAt, hd, isIdFiltered_none, Bool.false_eq_true, if_false]

end CosineLemmas

section JSValLemmas

lemma log10_pos : (0 : ℝ) < Real.log 10 := Real.log_pos (by norm_num)

lemma jsDivV_num_num (a b : ℝ) : jsDivV (.num a) (.num b) = jsDiv a b := rfl

lemma jsAdd_num_num (a b : ℝ) : jsAdd (.num a) (.num b) = .num (a + b) := rfl

lemma jsMul_num_num (a b : ℝ) : jsMul (.num a) (.num b) = .num (a * b) := rfl

lemma jsDiv_num {a b : ℝ} (hb : b ≠ 0) : jsDiv a b = .num (a / b) := if_neg hb

lemma jsDiv_pos_zero {a : ℝ} (ha : 0 < a) : jsDiv a 0 = .posInf := by
  unfold jsDiv
  rw [if_pos rfl, if_neg (ne_of_gt ha), if_pos ha]

lemma jsDiv_zero_zero : jsDiv 0 0 = .nan := by
  unfold jsDiv
  rw [if_pos rfl, if_pos rfl]

lemma jsLog_pos {x : ℝ} (hx : 0 < x) : jsLog (.num x) = .num (Real.log x) := by
  show (if x < 0 then JSVal.nan else if x = 0 then JSVal.negInf
    else JSVal.num (Real.log x)) = _
  rw [if_neg (not_lt.mpr hx.le), if_neg (ne_of_gt hx)]

lemma jsLog_posInf : jsLog .posInf = .posInf := rfl

lemma log10V_pos {x : ℝ} (hx : 0 < x) :
    jsDivV (jsLog (.num x)) (.num (Real.log 10)) = .num (Real.log x / Real.log 10) := by
  rw [jsLog_pos hx, jsDivV_num_num]
  exact jsDiv_num (ne_of_gt log10_pos)

lemma jsDivV_posInf_log10 : jsDivV .posInf (.num (Real.log 10)) = .posInf := by
  show (if 0 ≤ Real.log 10 then JSVal.posInf else JSVal.negInf) = JSVal.posInf
  rw [if_pos log10_pos.le]

lemma jsMul_num_posInf {t : ℝ} (ht : 0 < t) : jsMul (.num t) .posInf = .posInf := by
  show (if t = 0 then JSVal.nan else if 0 < t then JSVal.posInf else JSVal.negInf) = _
  rw [if_neg (ne_of_gt ht), if_pos ht]

end JSValLemmas

section ClaimC1

/-- C1: for every term with positive corpus frequency, positive total
document count and positive document frequency (and, when a document id is
given, a positive document-specific weight), `TFIDF` returns the record
`{key, rawtf, df, n, idf, tf, tfidf}` with `rawtf` the document-specific
weight when the id is given and the corpus-wide total otherwise,
`tf = 1 + log10(rawtf)`, `idf = log10(totalDocumentCount/documentFrequency)`,
and `tfidf = tf * idf`. -/
theorem tfidf_record_formulas (key : String) (idGiven : Bool) (a n df w : Nat)
    (ha : 0 < a) (hn : 0 < n) (hdf : 0 < df) (hw : 0 < w) :
    (TFIDF key idGiven (some a) (some n) df (if idGiven then some w else none)).key = key ∧
    (TFIDF key idGiven (some a) (some n) df (if idGiven then some w else none)).rawtf =
      .num (if idGiven then (w : ℝ) else (a : ℝ)) ∧
    (TFIDF key idGiven (some a) (some n) df (if idGiven then some w else none)).df =
      .num df ∧
    (TFIDF key idGiven (some a) (some n) df (if idGiven then some w else none)).n =
      .num n ∧
    (TFIDF key idGiven (some a) (some n) df (if idGiven then some w else none)).idf =
      .num (Real.log ((n : ℝ) / (df : ℝ)) / Real.log 10) ∧
    (TFIDF key idGiven (some a) (some n) df (if idGiven then some w else none)).tf =
      .num (1 + Real.log (if idGiven then (w : ℝ) else (a : ℝ)) / Real.log 10) ∧
    (TFIDF key idGiven (some a) (some n) df (if idGiven then some w else none)).tfidf =
      .num ((1 + Real.log (if idGiven then (w : ℝ) else (a : ℝ)) / Real.log 10) *
        (Real.log ((n : ℝ) / (df : ℝ)) / Real.log 10)) := by
  have hidf : jsDivV (jsLog (jsDivV (JSVal.num (n : ℝ)) (JSVal.num (df : ℝ))))
      (JSVal.num (Real.log 10)) = .num (Real.log ((n : ℝ) / (df : ℝ)) / Real.log 10) := by
    rw [jsDivV_num_num, jsDiv_num (show (df : ℝ) ≠ 0 by exact_mod_cast hdf.ne')]
    exact log10V_pos (div_pos (by exact_mod_cast hn) (by exact_mod_cast hdf))
  cases idGiven with
  | false =>
    have heval : TFIDF key false (some a) (some n) df none =
        { key := key, rawtf := .num (a : ℝ), df := .num df, n := .num n,
          idf := .num (Real.log ((n : ℝ) / (df : ℝ)) / Real.log 10),
          tf := .num (1 + Real.log (a : ℝ) / Real.log 10),
          tfidf := .num ((1 + Real.log (a : ℝ) / Real.log 10) *
            (Real.log ((n : ℝ) / (df : ℝ)) / Real.log 10)) } := by
      simp only [TFIDF, parseIntReply, Bool.false_eq_true, if_false]
      rw [log10V_pos (show (0 : ℝ) < (a : ℝ) by exact_mod_cast ha), hidf,
        jsAdd_num_num, jsMul_num_num]
    rw [show (if false = true then some w else none) = (none : Option Nat) from rfl, heval]
    exact ⟨rfl, rfl, rfl, rfl, rfl, rfl, rfl⟩
  | true =>
    have heval : TFIDF key true (some a) (some n) df (some w) =
        { key := key, rawtf := .num (w : ℝ), df := .num df, n := .num n,
          idf := .num (Real.log ((n : ℝ) / (df : ℝ)) / Real.log 10),
          tf := .num (1 + Real.log (w : ℝ) / Real.log 10),
          tfidf := .num ((1 + Real.log (w : ℝ) / Real.log 10) *
            (Real.log ((n : ℝ) / (df : ℝ)) / Real.log 10)) } := by
      simp only [TFIDF, parseIntReply, if_true]
      rw [log10V_pos (show (0 : ℝ) < (w : ℝ) by exact_mod_cast hw), hidf,
        jsAdd_num_num, jsMul_num_num]
    rw [show (if true = true then some w else none) = some w from rfl, heval]
    exact ⟨rfl, rfl, rfl, rfl, rfl, rfl, rfl⟩

/-- Witness for C1 at a concrete input: id given, corpus total 5, document
total 4, document frequency 2, document-specific weight 3. -/
theorem tfidf_record_formulas_witness :
    (0 < 5) ∧ (0 < 4) ∧ (0 < 2) ∧ (0 < 3) ∧
    ((TFIDF "noun:cat" true (some 5) (some 4) 2 (some 3)).key = "noun:cat" ∧
     (TFIDF "noun:cat" true (some 5) (some 4) 2 (some 3)).rawtf = .num ((3 : Nat) : ℝ) ∧
     (TFIDF "noun:cat" true (some 5) (some 4) 2 (some 3)).df = .num (2 : Nat) ∧
     (TFIDF "noun:cat" true (some 5) (some 4) 2 (some 3)).n = .num (4 : Nat) ∧
     (TFIDF "noun:cat" true (some 5) (some 4) 2 (some 3)).idf =
       .num (Real.log (((4 : Nat) : ℝ) / ((2 : Nat) : ℝ)) / Real.log 10) ∧
     (TFIDF "noun:cat" true (some 5) (some 4) 2 (some 3)).tf =
       .num (1 + Real.log ((3 : Nat) : ℝ) / Real.log 10) ∧
     (TFIDF "noun:cat" true (some 5) (some 4) 2 (some 3)).tfidf =
       .num ((1 + Real.log ((3 : Nat) : ℝ) / Real.log 10) *
         (Real.log (((4 : Nat) : ℝ) / ((2 : Nat) : ℝ)) / Real.log 10))) :=
  ⟨by decide, by decide, by decide, by decide,
    tfidf_record_formulas "noun:cat" true 5 4 2 3 (by decide) (by decide) (by decide)
      (by decide)⟩

end ClaimC1

section ClaimC3

/-- C3 counterexample: at corpus total 1, document total 1 and document
frequency 0, `TFIDF` does not return `idf = 0` and `tfidf = 0`; the
division by the zero document frequency produces a non-finite `idf`. -/
theorem tfidf_zero_df_not_zero_policy :
    ¬((TFIDF "x" false (some 1) (some 1) 0 none).idf = JSVal.num 0 ∧
      (TFIDF "x" false (some 1) (some 1) 0 none).tfidf = JSVal.num 0) := by
  intro h
  have hidf : (TFIDF "x" false (some 1) (some 1) 0 none).idf = JSVal.posInf := by
    simp only [TFIDF, parseIntReply, Bool.false_eq_true, if_false]
    rw [Nat.cast_zero, jsDivV_num_num,
      jsDiv_pos_zero (show (0 : ℝ) < ((1 : Nat) : ℝ) by norm_num), jsLog_posInf,
      jsDivV_posInf_log10]
  rw [hidf] at h
  exact JSVal.noConfusion h.1

/-- C3 amended: for every term whose document frequency is zero while the
total document count and the raw term frequency are positive, `TFIDF`
returns the non-finite values `idf = Infinity` and `tfidf = Infinity`
instead of applying the zero policy. -/
theorem tfidf_zero_df_infinite (key : String) (idGiven : Bool) (a n w : Nat)
    (ha : 0 < a) (hn : 0 < n) (hw : 0 < w) :
    (TFIDF key idGiven (some a) (some n) 0 (if idGiven then some w else none)).idf =
      JSVal.posInf ∧
    (TFIDF key idGiven (some a) (some n) 0 (if idGiven then some w else none)).tfidf =
      JSVal.posInf := by
  have hidf : jsDivV (jsLog (jsDivV (JSVal.num (n : ℝ)) (JSVal.num ((0 : Nat) : ℝ))))
      (JSVal.num (Real.log 10)) = JSVal.posInf := by
    rw [Nat.cast_zero, jsDivV_num_num,
      jsDiv_pos_zero (show (0 : ℝ) < (n : ℝ) by exact_mod_cast hn), jsLog_posInf,
      jsDivV_posInf_log10]
  have htfpos : ∀ x : Nat, 0 < x →
      (0 : ℝ) < 1 + Real.log (x : ℝ) / Real.log 10 := by
    intro x hx
    have hlog : (0 : ℝ) ≤ Real.log (x : ℝ) :=
      Real.log_nonneg (by exact_mod_cast hx)
    positivity
  cases idGiven with
  | false =>
    simp only [TFIDF, parseIntReply, Bool.false_eq_true, if_false]
    rw [log10V_pos (show (0 : ℝ) < (a : ℝ) by exact_mod_cast ha), hidf, jsAdd_num_num,
      jsMul_num_posInf (htfpos a ha)]
    exact ⟨rfl, rfl⟩
  | true =>
    simp only [TFIDF, parseIntReply, if_true]
    rw [log10V_pos (show (0 : ℝ) < (w : ℝ) by exact_mod_cast hw), hidf, jsAdd_num_num,
      jsMul_num_posInf (htfpos w hw)]
    exact ⟨rfl, rfl⟩

/-- Witness for the amended C3 at a concrete input. -/
theorem tfidf_zero_df_infinite_witness :
    (0 < 2) ∧ (0 < 3) ∧ (0 < 1) ∧
    ((TFIDF "x" false (some 2) (some 3) 0 none).idf = JSVal.posInf ∧
     (TFIDF "x" false (some 2) (some 3) 0 none).tfidf = JSVal.posInf) :=
  ⟨by decide, by decide, by decide,
    tfidf_zero_df_infinite "x" false 2 3 1 (by decide) (by decide) (by decide)⟩

end ClaimC3

section ClaimC2

/-- C2: starting from any store satisfying the symmetry invariant (for
example the empty store), after any sequence of `readDocument` ingests the
cooccurrence weight stored under a document's adjacency zset for a key
equals the weight stored under the key's adjacency zset for the document
id, for all non-reserved names (names that do not collide with the
next-edge bookkeeping namespace). -/
theorem cooccurrence_weights_symmetric (cfg : Config) (st : Store)
    (docs : List (String × String × List GNode)) (hst : SymState cfg st)
    (a b : String) (ha : Qkey cfg a) (hb : Qkey cfg b) :
    (ingestAll cfg docs st).zsets (fmt1 cfg a) b =
      (ingestAll cfg docs st).zsets (fmt1 cfg b) a :=
  symState_ingestAll cfg docs hst a b ha hb

/-- Witness for C2: one ingest of the node `noun:cat` under document `d1`
into the empty store. -/
theorem cooccurrence_weights_symmetric_witness :
    Qkey defaultConfig "d1" ∧ Qkey defaultConfig "noun:cat" ∧
    ((ingestAll defaultConfig
        [("d1", "the cat", [⟨"noun", "cat", none, false, none, none⟩])] emptyStore).zsets
        (fmt1 defaultConfig "d1") "noun:cat" =
      (ingestAll defaultConfig
        [("d1", "the cat", [⟨"noun", "cat", none, false, none, none⟩])] emptyStore).zsets
        (fmt1 defaultConfig "noun:cat") "d1") :=
  ⟨by decide, by decide,
    cooccurrence_weights_symmetric defaultConfig emptyStore
      [("d1", "the cat", [⟨"noun", "cat", none, false, none, none⟩])]
      (fun _ _ _ _ => rfl) "d1" "noun:cat" (by decide) (by decide)⟩

end ClaimC2

section ClaimC9

/-- C9: ingesting the identical text (hence the identical tokenized node
sequence) twice under the same document id doubles, over the single-ingest
delta, every counter and every zset weight (cooccurrence and next edges
alike), and raises the global document counter by exactly 2 (provided the
sequence produces no empty node key, which would collide with the global
counter key). -/
theorem ingest_twice_doubles (cfg : Config) (st : Store) (id text : String)
    (seq : List GNode) (hok : seqOkB cfg seq = true) :
    (∀ k : String,
      (readDocument cfg id text seq (readDocument cfg id text seq st)).kv k + st.kv k =
        2 * (readDocument cfg id text seq st).kv k) ∧
    (∀ n m : String,
      (readDocument cfg id text seq (readDocument cfg id text seq st)).zsets n m +
          st.zsets n m =
        2 * (readDocument cfg id text seq st).zsets n m) ∧
    (readDocument cfg id text seq st).kv (fmt1 cfg TOTAL) =
      st.kv (fmt1 cfg TOTAL) + 1 ∧
    (readDocument cfg id text seq (readDocument cfg id text seq st)).kv
        (fmt1 cfg TOTAL) =
      st.kv (fmt1 cfg TOTAL) + 2 := by
  refine ⟨?_, ?_, ?_, ?_⟩
  · intro k
    unfold readDocument
    rw [applyOps_kv, applyOps_kv]
    omega
  · intro n m
    unfold readDocument
    rw [applyOps_zsets, applyOps_zsets]
    omega
  · unfold readDocument
    rw [applyOps_kv, kvCount_readDocumentOps_total cfg id text seq hok]
  · unfold readDocument
    rw [applyOps_kv, applyOps_kv, kvCount_readDocumentOps_total cfg id text seq hok]

/-- Witness for C9: ingesting the single node `noun:cat` twice under `d1`
into the empty store. -/
theorem ingest_twice_doubles_witness :
    seqOkB defaultConfig [⟨"noun", "cat", none, false, none, none⟩] = true ∧
    ((∀ k : String,
      (readDocument defaultConfig "d1" "the cat"
          [⟨"noun", "cat", none, false, none, none⟩]
          (readDocument defaultConfig "d1" "the cat"
            [⟨"noun", "cat", none, false, none, none⟩] emptyStore)).kv k +
          emptyStore.kv k =
        2 * (readDocument defaultConfig "d1" "the cat"
          [⟨"noun", "cat", none, false, none, none⟩] emptyStore).kv k) ∧
    (∀ n m : String,
      (readDocument defaultConfig "d1" "the cat"
          [⟨"noun", "cat", none, false, none, none⟩]
          (readDocument defaultConfig "d1" "the cat"
            [⟨"noun", "cat", none, false, none, none⟩] emptyStore)).zsets n m +
          emptyStore.zsets n m =
        2 * (readDocument defaultConfig "d1" "the cat"
          [⟨"noun", "cat", none, false, none, none⟩] emptyStore).zsets n m) ∧
    (readDocument defaultConfig "d1" "the cat"
        [⟨"noun", "cat", none, false, none, none⟩] emptyStore).kv
        (fmt1 defaultConfig TOTAL) =
      emptyStore.kv (fmt1 defaultConfig TOTAL) + 1 ∧
    (readDocument defaultConfig "d1" "the cat"
        [⟨"noun", "cat", none, false, none, none⟩]
        (readDocument defaultConfig "d1" "the cat"
          [⟨"noun", "cat", none, false, none, none⟩] emptyStore)).kv
        (fmt1 defaultConfig TOTAL) =
      emptyStore.kv (fmt1 defaultConfig TOTAL) + 2) :=
  ⟨by decide,
    ingest_twice_doubles defaultConfig emptyStore "d1" "the cat"
      [⟨"noun", "cat", none, false, none, none⟩] (by decide)⟩

end ClaimC9

section ClaimC4

/-- C4 counterexample: on a document whose adjacency set exists but is
empty, the `ZRANGE` reply is the empty array `[]` (not null), the
`if (!results)` guard does not fire (an empty array is truthy in
JavaScript), and the empty `async.every` batch succeeds vacuously - so
`indexWeights` reports `true`, not `false`, even when every individual
term computation would fail. -/
theorem indexWeights_empty_reports_true :
    indexWeights (fun _ => false) (some []) = true ∧ (true : Bool) ≠ false :=
  ⟨rfl, by decide⟩

/-- C4 amended: `indexWeights` reports false exactly when the adjacency-set
read yields a null reply (a failed read); a document with an empty
adjacency set yields the empty term batch, which reports true. -/
theorem indexWeights_false_iff_null (termSuccess : String → Bool) :
    indexWeights termSuccess (some []) = true ∧ indexWeights termSuccess none = false :=
  ⟨rfl, rfl⟩

end ClaimC4

section ClaimC5

/-- C5 counterexample: with `searchLimit = 1` and a three-entry weight set
in descending score order, the per-term fetch returns 2 entries - more
than `searchLimit` - because `ZREVRANGE 0 searchLimit` includes both end
indices. -/
theorem searchTermFetch_exceeds_limit :
    List.Sorted (fun x y : String × ℚ => x.2 ≥ y.2) [("a", 3), ("b", 2), ("c", 1)] ∧
    (searchTermFetch [("a", 3), ("b", 2), ("c", 1)] 1).length = 2 ∧
    ¬((searchTermFetch [("a", 3), ("b", 2), ("c", 1)] 1).length ≤ 1) :=
  ⟨by decide, rfl, by decide⟩

/-- C5 amended: for every term weight set given in descending score order,
the entries fetched by `search` are a prefix of that order (hence
descending) and number at most `searchLimit + 1` - one more than the
claimed bound, since the redis stop index is inclusive. -/
theorem searchTermFetch_bound (entries : List (String × ℚ)) (searchLimit : Nat)
    (hs : List.Sorted (fun x y : String × ℚ => x.2 ≥ y.2) entries) :
    (searchTermFetch entries searchLimit).length ≤ searchLimit + 1 ∧
    (searchTermFetch entries searchLimit) <+: entries ∧
    List.Sorted (fun x y : String × ℚ => x.2 ≥ y.2)
      (searchTermFetch entries searchLimit) := by
  unfold searchTermFetch zrevrange
  rw [List.drop_zero, Nat.sub_zero]
  refine ⟨?_, ?_, ?_⟩
  · rw [List.length_take]
    omega
  · exact ⟨entries.drop (searchLimit + 1), List.take_append_drop ..⟩
  · exact hs.sublist (List.take_sublist ..)

/-- Witness for the amended C5 at a concrete descending weight set. -/
theorem searchTermFetch_bound_witness :
    List.Sorted (fun x y : String × ℚ => x.2 ≥ y.2) [("a", 3), ("b", 2)] ∧
    ((searchTermFetch [("a", 3), ("b", 2)] 5).length ≤ 5 + 1 ∧
     (searchTermFetch [("a", 3), ("b", 2)] 5) <+: [("a", 3), ("b", 2)] ∧
     List.Sorted (fun x y : String × ℚ => x.2 ≥ y.2)
       (searchTermFetch [("a", 3), ("b", 2)] 5)) :=
  ⟨by decide, searchTermFetch_bound [("a", 3), ("b", 2)] 5 (by decide)⟩

end ClaimC5

section ClaimC6

/-- C6: with the default configuration (empty namespace), the key
`noun:cat` wildcard-matched for the separator-free term `cat` is not
reserved, yet term reduction returns `oun:cat`: the code slices
`nsPrefix.length + 1 = 1` leading characters although no namespace or
separator precedes the key under the empty default namespace, instead of
returning the concrete node key `noun:cat`. -/
theorem search_default_ns_strip_mangles :
    isReserved defaultConfig "noun:cat" = false ∧
    reduceKeys defaultConfig ["noun:cat"] = ["oun:cat"] ∧
    "oun:cat" ≠ "noun:cat" :=
  ⟨by decide, by decide, by decide⟩

end ClaimC6

section ClaimC7

/-- C7 counterexample: with an empty weight vector on the left (zero
magnitude), `_cosineFilter` does not return the defined value 0: the
`0 / 0` division yields `NaN`. -/
theorem cosine_zero_magnitude_not_zero :
    sumSquares none ([] : List (String × ℚ)) = 0 ∧
    cosineFilter none [] [("b", (2 : ℚ))] ≠ JSVal.num 0 := by
  refine ⟨rfl, ?_⟩
  have hs : sumSquares none ([] : List (String × ℚ)) = 0 := rfl
  have hdot : dotFold (buildDict none []) (buildDict none [("b", (2 : ℚ))])
      (addIds none [("b", (2 : ℚ))] (addIds none [] [])) = 0 :=
    dotFold_zero_left _ _ _ (buildDict_zero none _ hs)
  intro hcon
  have hnan : cosineFilter none [] [("b", (2 : ℚ))] = JSVal.nan := by
    unfold cosineFilter
    rw [hdot, hs, Int.cast_zero, Real.sqrt_zero, zero_mul]
    exact jsDiv_zero_zero
  rw [hnan] at hcon
  exact JSVal.noConfusion hcon

/-- C7 amended: whenever either side's (filtered) parsed weight vector has
zero magnitude, `_cosineFilter` - hence both `CosineSimilarity` and
`CosineConceptSimilarity` - returns `NaN` (the `0 / 0` division), not the
defined value 0. -/
theorem cosine_zero_magnitude_nan (fps : Option (List String)) (v1 v2 : List (String × ℚ))
    (h : sumSquares fps v1 = 0 ∨ sumSquares fps v2 = 0) :
    cosineFilter fps v1 v2 = JSVal.nan := by
  unfold cosineFilter
  rcases h with h1 | h2
  · have hdot : dotFold (buildDict fps v1) (buildDict fps v2)
        (addIds fps v2 (addIds fps v1 [])) = 0 :=
      dotFold_zero_left _ _ _ (buildDict_zero fps v1 h1)
    rw [hdot, h1, Int.cast_zero, Real.sqrt_zero, zero_mul]
    exact jsDiv_zero_zero
  · have hdot : dotFold (buildDict fps v1) (buildDict fps v2)
        (addIds fps v2 (addIds fps v1 [])) = 0 :=
      dotFold_zero_right _ _ _ (buildDict_zero fps v2 h2)
    rw [hdot, h2, Int.cast_zero, Real.sqrt_zero, mul_zero]
    exact jsDiv_zero_zero

/-- Witness for the amended C7: empty left vector against a one-entry
right vector. -/
theorem cosine_zero_magnitude_nan_witness :
    (sumSquares none ([] : List (String × ℚ)) = 0 ∨
      sumSquares none [("a", (1 : ℚ))] = 0) ∧
    cosineFilter none [] [("a", (1 : ℚ))] = JSVal.nan :=
  ⟨Or.inl rfl, cosine_zero_magnitude_nan none [] [("a", (1 : ℚ))] (Or.inl rfl)⟩

end ClaimC7

section ClaimC8

/-- C8 counterexample: the stored weight vector `[("a", 1/2)]` is
non-degenerate (its stored magnitude is not zero), yet
`CosineSimilarity` of the document with itself is not `1.0`: integer
parsing truncates the score to 0, and the `0 / 0` division yields `NaN`. -/
theorem cosine_self_fractional_not_one :
    (([("a", (1 : ℚ) / 2)].map (fun e => e.2 * e.2)).sum ≠ 0) ∧
    CosineSimilarity [("a", (1 : ℚ) / 2)] [("a", (1 : ℚ) / 2)] ≠ JSVal.num 1 := by
  constructor
  · norm_num
  · have hps : parseIntScore ((1 : ℚ) / 2) = 0 := by norm_num [parseIntScore]
    have hs : sumSquares none [("a", (1 : ℚ) / 2)] = 0 := by
      rw [sumSquares_eq]
      simp only [List.map_cons, List.map_nil, List.sum_cons, List.sum_nil,
        isIdFiltered_none, Bool.false_eq_true, if_false]
      rw [hps]
      norm_num
    have hdot : dotFold (buildDict none [("a", (1 : ℚ) / 2)])
        (buildDict none [("a", (1 : ℚ) / 2)])
        (addIds none [("a", (1 : ℚ) / 2)] (addIds none [("a", (1 : ℚ) / 2)] [])) = 0 :=
      dotFold_zero_left _ _ _ (buildDict_zero none _ hs)
    intro hcon
    have hnan : CosineSimilarity [("a", (1 : ℚ) / 2)] [("a", (1 : ℚ) / 2)] = JSVal.nan := by
      unfold CosineSimilarity cosineFilter
      rw [hdot, hs, Int.cast_zero, Real.sqrt_zero, zero_mul]
      exact jsDiv_zero_zero
    rw [hnan] at hcon
    exact JSVal.noConfusion hcon

/-- C8 amended: for every weight vector with distinct members whose
integer-parsed scores have non-zero magnitude, `CosineSimilarity` of the
document with itself is exactly 1 (the dot product over the shared ids
equals the sum of squares, and the product of the two equal square roots
gives that same sum back). -/
theorem cosine_self_parsed_nonzero_one (v : List (String × ℚ))
    (hnd : (v.map Prod.fst).Nodup) (hS : sumSquares none v ≠ 0) :
    CosineSimilarity v v = JSVal.num 1 := by
  unfold CosineSimilarity cosineFilter
  rw [addIds_self v hnd, buildDict_self_dot v hnd,
    Real.mul_self_sqrt (by exact_mod_cast sumSquares_nonneg none v),
    jsDiv_num (show ((sumSquares none v : ℤ) : ℝ) ≠ 0 by exact_mod_cast hS),
    div_self (show ((sumSquares none v : ℤ) : ℝ) ≠ 0 by exact_mod_cast hS)]

/-- Witness for the amended C8 at a concrete integer-scored vector. -/
theorem cosine_self_parsed_nonzero_one_witness :
    ([("noun:cat", (2 : ℚ))].map Prod.fst).Nodup ∧
    sumSquares none [("noun:cat", (2 : ℚ))] ≠ 0 ∧
    CosineSimilarity [("noun:cat", (2 : ℚ))] [("noun:cat", (2 : ℚ))] = JSVal.num 1 :=
  ⟨by decide, by decide,
    cosine_self_parsed_nonzero_one [("noun:cat", (2 : ℚ))] (by decide) (by decide)⟩

end ClaimC8

section ClaimC10

/-- C10: `_cosineFilter` parses every stored weight with `parseInt`,
discarding fractional parts: on the concrete pair of stored vectors
`[("a", 3/2), ("b", 2)]` and `[("a", 2), ("b", 3/2)]` it returns `4/5`,
while the cosine similarity of the stored real-valued vectors (the spec's
definition) is `24/25` - a different score. -/
theorem cosine_integer_parsing_diverges :
    parseIntScore ((3 : ℚ) / 2) = 1 ∧
    CosineSimilarity [("a", (3 : ℚ) / 2), ("b", (2 : ℚ))]
        [("a", (2 : ℚ)), ("b", (3 : ℚ) / 2)] = JSVal.num ((4 : ℝ) / 5) ∧
    specCosineSimilarity [("a", (3 : ℚ) / 2), ("b", (2 : ℚ))]
        [("a", (2 : ℚ)), ("b", (3 : ℚ) / 2)] = (24 : ℝ) / 25 ∧
    ((4 : ℝ) / 5) ≠ (24 : ℝ) / 25 := by
  have hp1 : parseIntScore ((3 : ℚ) / 2) = 1 := by norm_num [parseIntScore]
  have hp2 : parseIntScore (2 : ℚ) = 2 := by norm_num [parseIntScore]
  have hnd1 : (([("a", (3 : ℚ) / 2), ("b", (2 : ℚ))]).map Prod.fst).Nodup := by decide
  have hnd2 : (([("a", (2 : ℚ)), ("b", (3 : ℚ) / 2)]).map Prod.fst).Nodup := by decide
  refine ⟨hp1, ?_, ?_, by norm_num⟩
  · have hd1a : buildDict none [("a", (3 : ℚ) / 2), ("b", (2 : ℚ))] "a" = some 1 := by
      have := dictFold_mem none [("a", (3 : ℚ) / 2), ("b", (2 : ℚ))] (fun _ => none)
        ("a", (3 : ℚ) / 2) (by simp) hnd1 rfl
      rwa [hp1] at this
    have hd1b : buildDict none [("a", (3 : ℚ) / 2), ("b", (2 : ℚ))] "b" = some 2 := by
      have := dictFold_mem none [("a", (3 : ℚ) / 2), ("b", (2 : ℚ))] (fun _ => none)
        ("b", (2 : ℚ)) (by simp) hnd1 rfl
      rwa [hp2] at this
    have hd2a : buildDict none [("a", (2 : ℚ)), ("b", (3 : ℚ) / 2)] "a" = some 2 := by
      have := dictFold_mem none [("a", (2 : ℚ)), ("b", (3 : ℚ) / 2)] (fun _ => none)
        ("a", (2 : ℚ)) (by simp) hnd2 rfl
      rwa [hp2] at this
    have hd2b : buildDict none [("a", (2 : ℚ)), ("b", (3 : ℚ) / 2)] "b" = some 1 := by
      have := dictFold_mem none [("a", (2 : ℚ)), ("b", (3 : ℚ) / 2)] (fun _ => none)
        ("b", (3 : ℚ) / 2) (by simp) hnd2 rfl
      rwa [hp1] at this
    have hids : addIds none [("a", (2 : ℚ)), ("b", (3 : ℚ) / 2)]
        (addIds none [("a", (3 : ℚ) / 2), ("b", (2 : ℚ))] []) = ["a", "b"] := by decide
    have hs1 : sumSquares none [("a", (3 : ℚ) / 2), ("b", (2 : ℚ))] = 5 := by
      rw [sumSquares_eq]
      simp [hp1, hp2]
    have hs2 : sumSquares none [("a", (2 : ℚ)), ("b", (3 : ℚ) / 2)] = 5 := by
      rw [sumSquares_eq]
      simp [hp1, hp2]
    have hdot : dotFold (buildDict none [("a", (3 : ℚ) / 2), ("b", (2 : ℚ))])
        (buildDict none [("a", (2 : ℚ)), ("b", (3 : ℚ) / 2)]) ["a", "b"] = 4 := by
      rw [dotFold_eq]
      simp only [List.map_cons, List.map_nil, List.sum_cons, List.sum_nil]
      simp [prodAt, hd1a, hd1b, hd2a, hd2b]
    unfold CosineSimilarity cosineFilter
    rw [hids, hdot, hs1, hs2,
      Real.mul_self_sqrt (by norm_num : (0 : ℝ) ≤ ((5 : ℤ) : ℝ)),
      jsDiv_num (by norm_num : ((5 : ℤ) : ℝ) ≠ 0)]
    norm_num
  · unfold specCosineSimilarity
    have hl1 : List.lookup "a" [("a", (2 : ℚ)), ("b", (3 : ℚ) / 2)] = some 2 := by
      simp [List.lookup]
    have hl2 : List.lookup "b" [("a", (2 : ℚ)), ("b", (3 : ℚ) / 2)] = some ((3 : ℚ) / 2) := by
      simp [List.lookup]
    simp only [List.map_cons, List.map_nil, List.sum_cons, List.sum_nil, hl1, hl2]
    have hsq : Real.sqrt ((((3 : ℚ) / 2 * ((3 : ℚ) / 2) + ((2 : ℚ) * 2 + 0) : ℚ)) : ℝ) =
        5 / 2 := by
      rw [show ((((3 : ℚ) / 2 * ((3 : ℚ) / 2) + ((2 : ℚ) * 2 + 0) : ℚ)) : ℝ) =
        (5 / 2 : ℝ) ^ 2 by push_cast; norm_num]
      exact Real.sqrt_sq (by norm_num)
    have hsq2 : Real.sqrt ((((2 : ℚ) * 2 + ((3 : ℚ) / 2 * ((3 : ℚ) / 2) + 0) : ℚ)) : ℝ) =
        5 / 2 := by
      rw [show ((((2 : ℚ) * 2 + ((3 : ℚ) / 2 * ((3 : ℚ) / 2) + 0) : ℚ)) : ℝ) =
        (5 / 2 : ℝ) ^ 2 by push_cast; norm_num]
      exact Real.sqrt_sq (by norm_num)
    rw [hsq, hsq2]
    push_cast
    norm_num

end ClaimC10

end Salient
